import Mathlib

/-!
Verification of the `SmartShelfOptimizer` engine (smart shelf management).

The Python class in `改版3.py` is shallowly embedded: Python `dict` /
`defaultdict` become insertion-ordered association lists, the bounded
`deque(maxlen=n)` becomes a list trimmed from the front, SQLite tables become
pure tables inside a `DB` record, and floats become rationals.  Every numeric
formula is transcribed literally from the source.
-/

namespace SmartShelf

/-- Association list keyed by strings, mirroring a Python `dict`
(insertion-ordered, first occurrence wins on lookup). -/
abbrev AList (α : Type) := List (String × α)

/-- Lookup of the first binding of `key`, like `dict.get`. -/
def alookup {α : Type} : AList α → String → Option α
  | [], _ => none
  | (k, v) :: t, key => if k = key then some v else alookup t key

/-- Lookup with a default, like `dict.get(key, d)` / `defaultdict` access. -/
def aget {α : Type} (m : AList α) (key : String) (d : α) : α :=
  (alookup m key).getD d

/-- Assignment `m[key] = v`: replace the existing binding in place, else
append a fresh binding (Python dict insertion order). -/
def aset {α : Type} : AList α → String → α → AList α
  | [], key, v => [(key, v)]
  | (k, w) :: t, key, v => if k = key then (key, v) :: t else (k, w) :: aset t key v

/-- The keys of an association list. -/
def akeys {α : Type} (m : AList α) : List String := m.map Prod.fst

/-- SQL `UPDATE m SET ... WHERE key`: rewrite the row for `key` if present,
affect nothing otherwise. -/
def dbUpdate {α : Type} (m : AList α) (key : String) (f : α → α) : AList α :=
  m.map (fun p => if p.1 = key then (p.1, f p.2) else p)

/-- One record of `item_data`: the per-item counters of the Interaction
Ledger (`sales`, `pickups`, `dropoffs`, `current_stock`, `position`). -/
structure ItemRec where
  sales : ℤ
  pickups : ℤ
  dropoffs : ℤ
  current_stock : ℤ
  position : Option String
  deriving DecidableEq, Repr

/-- The zero-valued record auto-vivified by the `defaultdict` factory. -/
def defaultItem : ItemRec :=
  { sales := 0, pickups := 0, dropoffs := 0, current_stock := 0, position := none }

/-- Engine configuration fixed in `__init__`: reference height, history
buffer capacity, the three weights and the shelf layout
`{zone: (start, end)}`. -/
structure Config where
  reference_height : ℚ
  history_frames : ℕ
  gaze_weight : ℚ
  sales_weight : ℚ
  interaction_weight : ℚ
  shelf_layout : List (String × ℚ × ℚ)
  deriving DecidableEq, Repr

/-- The default configuration values of `SmartShelfOptimizer.__init__`. -/
def defaultConfig : Config :=
  { reference_height := 1.75
    history_frames := 30
    gaze_weight := 0.6
    sales_weight := 0.3
    interaction_weight := 0.1
    shelf_layout :=
      [("top", 1.6, 1.8), ("upper_middle", 1.4, 1.6),
       ("lower_middle", 1.2, 1.4), ("bottom", 0.8, 1.2)] }

/-- In-memory engine state: `height_history` (the bounded deque),
`item_data` and `gaze_data`. -/
structure Mem where
  height_history : List ℚ
  item_data : AList ItemRec
  gaze_data : AList ℤ
  deriving DecidableEq, Repr

/-- Durable store: tables `item_data`, `gaze_data` and the append-only
`height_history` (rows in autoincrement id order). -/
structure DB where
  item_table : AList ItemRec
  gaze_table : AList ℤ
  height_table : List ℚ
  deriving DecidableEq, Repr

/-- Fresh in-memory state of a newly constructed engine. -/
def emptyMem : Mem := { height_history := [], item_data := [], gaze_data := [] }

/-- Freshly created empty tables (`create_tables`). -/
def emptyDB : DB := { item_table := [], gaze_table := [], height_table := [] }

/-- `deque(maxlen=cap).append`: append and keep only the most recent `cap`
elements. -/
def dequeAppend (cap : ℕ) (b : List ℚ) (x : ℚ) : List ℚ :=
  let b2 := b ++ [x]
  b2.drop (b2.length - cap)

/-- The most recent `cap` elements of a list. -/
def takeRightL (cap : ℕ) (l : List ℚ) : List ℚ := l.drop (l.length - cap)

/-- `calibrate_height`: `0` for non-positive pixel heights, else
`reference_height * 240 / pixel_height`. -/
def calibrate_height (cfg : Config) (pixel_height : ℚ) : ℚ :=
  if pixel_height ≤ 0 then 0 else cfg.reference_height * 240 / pixel_height

/-- `update_height_data`: calibrate, keep the sample only if it lies in
`[1.0, 2.2]`; on acceptance append to the deque and insert a row into the
`height_history` table. -/
def update_height_data (cfg : Config) (pixel_height : ℚ) (s : Mem × DB) : Mem × DB :=
  let actual_height := calibrate_height cfg pixel_height
  if 1.0 ≤ actual_height ∧ actual_height ≤ 2.2 then
    ({ s.1 with height_history := dequeAppend cfg.history_frames s.1.height_history actual_height },
     { s.2 with height_table := s.2.height_table ++ [actual_height] })
  else s

/-- `np.mean` on the nonempty history list. -/
def listMean (l : List ℚ) : ℚ := l.sum / l.length

/-- `calculate_gaze_range`: default `(1.4, 1.7)` when no override and the
history is empty, otherwise eye level `h * 0.95` clamped to
`(max 0.5 (e - 0.10), min 1.8 (e + 0.10))`. -/
def calculate_gaze_range (mem : Mem) (height : Option ℚ) : ℚ × ℚ :=
  match height with
  | none =>
    if mem.height_history = [] then (1.4, 1.7)
    else
      let h := listMean mem.height_history
      let eye_level := h * 0.95
      (max 0.5 (eye_level - 0.10), min 1.8 (eye_level + 0.10))
  | some h =>
    let eye_level := h * 0.95
    (max 0.5 (eye_level - 0.10), min 1.8 (eye_level + 0.10))

/-- `update_item_status`: overwrite `current_stock` and `position` in memory,
then `INSERT OR REPLACE` the full row (with the in-memory counters). -/
def update_item_status (id : String) (stock : ℤ) (position : String)
    (s : Mem × DB) : Mem × DB :=
  let r := aget s.1.item_data id defaultItem
  let r2 := { r with current_stock := stock, position := some position }
  ({ s.1 with item_data := aset s.1.item_data id r2 },
   { s.2 with item_table := aset s.2.item_table id r2 })

/-- `record_interaction`: bump `pickups` on `"pickup"`, `dropoffs` on
`"dropoff"` (anything else only auto-vivifies the item), then SQL `UPDATE`
of the two counters — a no-op on the table when the row is absent. -/
def record_interaction (id : String) (interaction_type : String)
    (s : Mem × DB) : Mem × DB :=
  let r := aget s.1.item_data id defaultItem
  let r2 :=
    if interaction_type = "pickup" then { r with pickups := r.pickups + 1 }
    else if interaction_type = "dropoff" then { r with dropoffs := r.dropoffs + 1 }
    else r
  let tbl := dbUpdate s.2.item_table id
    (fun row => { row with pickups := r2.pickups, dropoffs := r2.dropoffs })
  ({ s.1 with item_data := aset s.1.item_data id r2 },
   { s.2 with item_table := tbl })

/-- `record_sale`: `sales += qty`, `current_stock -= qty` in memory, then SQL
`UPDATE` of the two fields — a no-op on the table when the row is absent. -/
def record_sale (id : String) (quantity : ℤ) (s : Mem × DB) : Mem × DB :=
  let r := aget s.1.item_data id defaultItem
  let r2 := { r with sales := r.sales + quantity,
                     current_stock := r.current_stock - quantity }
  let tbl := dbUpdate s.2.item_table id
    (fun row => { row with sales := r2.sales, current_stock := r2.current_stock })
  ({ s.1 with item_data := aset s.1.item_data id r2 },
   { s.2 with item_table := tbl })

/-- `restock_item`: `current_stock += qty` in memory, then SQL `UPDATE` of
that field — a no-op on the table when the row is absent. -/
def restock_item (id : String) (quantity : ℤ) (s : Mem × DB) : Mem × DB :=
  let r := aget s.1.item_data id defaultItem
  let r2 := { r with current_stock := r.current_stock + quantity }
  let tbl := dbUpdate s.2.item_table id
    (fun row => { row with current_stock := r2.current_stock })
  ({ s.1 with item_data := aset s.1.item_data id r2 },
   { s.2 with item_table := tbl })

/-- The first configured zone whose band `[start, end]` contains `y`
(the loop of `update_gaze_data`, which breaks on the first hit). -/
def findZone (cfg : Config) (y : ℚ) : Option (String × ℚ × ℚ) :=
  cfg.shelf_layout.find? (fun zb => decide (zb.2.1 ≤ y) && decide (y ≤ zb.2.2))

/-- `update_gaze_data`: bump the tally of the first matching zone and
`INSERT OR REPLACE` its row; drop the event when no zone matches. -/
def update_gaze_data (cfg : Config) (y : ℚ) (s : Mem × DB) : Mem × DB :=
  match findZone cfg y with
  | some (zone, _, _) =>
    let c := aget s.1.gaze_data zone 0 + 1
    ({ s.1 with gaze_data := aset s.1.gaze_data zone c },
     { s.2 with gaze_table := aset s.2.gaze_table zone c })
  | none => s

/-- `load_data_from_db`: rebuild the in-memory state from the three tables;
height rows are replayed through the bounded deque. -/
def load_data_from_db (cfg : Config) (db : DB) : Mem :=
  { item_data := db.item_table.foldl (fun m p => aset m p.1 p.2) []
    gaze_data := db.gaze_table.foldl (fun m p => aset m p.1 p.2) []
    height_history := db.height_table.foldl (dequeAppend cfg.history_frames) [] }

/-- `calculate_shelf_scores`: gaze component (tally share, or uniform when
no tally), ergonomic component (overlap of the zone band with the comfort
range over the zone height), combined with `gaze_weight`.  Returned in
shelf-layout order, as the Python dict comprehension does. -/
def calculate_shelf_scores (cfg : Config) (mem : Mem) : List (String × ℚ) :=
  let total_gaze : ℤ := (mem.gaze_data.map Prod.snd).sum
  let gaze_score : String → ℚ := fun zone =>
    if total_gaze > 0 then ((aget mem.gaze_data zone 0 : ℤ) : ℚ) / (total_gaze : ℚ)
    else 1 / (cfg.shelf_layout.length : ℚ)
  let ideal := calculate_gaze_range mem none
  cfg.shelf_layout.map (fun zb =>
    let zone := zb.1
    let overlap_start := max zb.2.1 ideal.1
    let overlap_end := min zb.2.2 ideal.2
    let overlap := max 0 (overlap_end - overlap_start)
    let zone_height := zb.2.2 - zb.2.1
    let ergonomic := if zone_height > 0 then overlap / zone_height else 0
    (zone, cfg.gaze_weight * gaze_score zone + (1 - cfg.gaze_weight) * ergonomic))

/-- Truthiness test `priority_items and item_id in priority_items`. -/
def isPriority (priority_items : Option (List String)) (id : String) : Bool :=
  match priority_items with
  | none => false
  | some l => !l.isEmpty && l.contains id

/-- The priority score of one item
(`sales_weight * sales + interaction_weight * (pickups - dropoffs)`,
boosted by `1.5` for priority items). -/
def itemPriority (cfg : Config) (priority_items : Option (List String))
    (id : String) (d : ItemRec) : ℚ :=
  let p := cfg.sales_weight * (d.sales : ℚ) +
           cfg.interaction_weight * ((d.pickups : ℚ) - (d.dropoffs : ℚ))
  if isPriority priority_items id then p * 1.5 else p

/-- Stable insertion into a descending-sorted list: the new element goes in
front of the first strictly smaller value, behind equal ones. -/
def insertDesc {α : Type} (x : α × ℚ) : List (α × ℚ) → List (α × ℚ)
  | [] => [x]
  | y :: ys => if y.2 ≤ x.2 then x :: y :: ys else y :: insertDesc x ys

/-- Python `sorted(..., key=lambda x: x[1], reverse=True)`: stable
descending sort by the second component. -/
def sortDesc {α : Type} (l : List (α × ℚ)) : List (α × ℚ) :=
  l.foldr insertDesc []

/-- The assignment loop of `recommend_item_positions`: each item in priority
order goes to the first zone (in score order) whose running count is below
`cap`; an item finding every zone full is skipped. -/
def allocate (cap : ℕ) (zones : List String) :
    List (String × ℚ) → AList ℕ → AList String
  | [], _ => []
  | it :: its, zone_capacity =>
    match zones.find? (fun z => decide (aget zone_capacity z 0 < cap)) with
    | some z => (it.1, z) :: allocate cap zones its (aset zone_capacity z (aget zone_capacity z 0 + 1))
    | none => allocate cap zones its zone_capacity

/-- `recommend_item_positions`: sort zones by score and items by priority
(both descending, stable), cap each zone at
`max 1 (itemCount / zoneCount + 1)`, and allocate greedily. -/
def recommend_item_positions (cfg : Config) (mem : Mem)
    (priority_items : Option (List String)) : AList String :=
  let shelf_scores := calculate_shelf_scores cfg mem
  let sorted_zones := sortDesc shelf_scores
  let item_priorities : List (String × ℚ) :=
    mem.item_data.map (fun p => (p.1, itemPriority cfg priority_items p.1 p.2))
  let sorted_items := sortDesc item_priorities
  let max_items_per_zone := max 1 (sorted_items.length / sorted_zones.length + 1)
  allocate max_items_per_zone (sorted_zones.map Prod.fst) sorted_items []

/-- `calculate_shelf_scores` as an engine call: the method reads the state
and mutates nothing, so the call returns the state unchanged. -/
def calculate_shelf_scores_call (cfg : Config) (s : Mem × DB) :
    List (String × ℚ) × (Mem × DB) :=
  (calculate_shelf_scores cfg s.1, s)

/-- `recommend_item_positions` as an engine call: a pure read, the state
comes back unchanged. -/
def recommend_item_positions_call (cfg : Config) (priority_items : Option (List String))
    (s : Mem × DB) : AList String × (Mem × DB) :=
  (recommend_item_positions cfg s.1 priority_items, s)

/-- The mutating operations of the engine. -/
inductive Op where
  | sale (id : String) (qty : ℤ)
  | restock (id : String) (qty : ℤ)
  | interaction (id : String) (kind : String)
  | setStatus (id : String) (stock : ℤ) (position : String)
  | gaze (y : ℚ)
  | stature (pixel : ℚ)
  deriving DecidableEq, Repr

/-- Apply one mutating operation to the paired in-memory / durable state. -/
def step (cfg : Config) (s : Mem × DB) : Op → Mem × DB
  | .sale id qty => record_sale id qty s
  | .restock id qty => restock_item id qty s
  | .interaction id kind => record_interaction id kind s
  | .setStatus id stock position => update_item_status id stock position s
  | .gaze y => update_gaze_data cfg y s
  | .stature pixel => update_height_data cfg pixel s

/-- Run a sequence of mutating operations. -/
def runOps (cfg : Config) (s : Mem × DB) (ops : List Op) : Mem × DB :=
  ops.foldl (step cfg) s

/-- `ops` only ever applies `sale` / `restock` / `interaction` to an item
that an earlier `setStatus` has registered (so that the SQL `UPDATE`
statements find their row).  `reg` is the list of already-registered ids. -/
def registeredOK : List Op → List String → Bool
  | [], _ => true
  | op :: ops, reg =>
    match op with
    | .sale id _ => reg.contains id && registeredOK ops reg
    | .restock id _ => reg.contains id && registeredOK ops reg
    | .interaction id _ => reg.contains id && registeredOK ops reg
    | .setStatus id _ _ => registeredOK ops (id :: reg)
    | .gaze _ => registeredOK ops reg
    | .stature _ => registeredOK ops reg

/-- The calibrated values of a pixel stream that pass the `[1.0, 2.2]`
acceptance filter of `update_height_data`, in order. -/
def acceptedOf (cfg : Config) (pixels : List ℚ) : List ℚ :=
  (pixels.map (calibrate_height cfg)).filter (fun h => decide (1.0 ≤ h) && decide (h ≤ 2.2))

/-- Number of items a recommendation assigns to zone `z`. -/
def countZ (z : String) (r : AList String) : ℕ :=
  (r.filter (fun p => decide (p.2 = z))).length

/-- Total number of assignments recorded in a running `zone_capacity` table
over a list of zones. -/
def totalCount (zones : List String) (zc : AList ℕ) : ℕ :=
  (zones.map (fun z => aget zc z 0)).sum

/-- Write-through invariant tying the in-memory state to the durable tables:
registered ids have rows, item and gaze lookups agree between memory and
store, the buffer is the bounded replay of the height table, and the tables
are duplicate-free. -/
def InvS (cfg : Config) (reg : List String) (s : Mem × DB) : Prop :=
  (∀ id ∈ reg, id ∈ akeys s.2.item_table) ∧
  (∀ id, aget s.1.item_data id defaultItem = aget s.2.item_table id defaultItem) ∧
  (∀ z, aget s.1.gaze_data z 0 = aget s.2.gaze_table z 0) ∧
  s.1.height_history = s.2.height_table.foldl (dequeAppend cfg.history_frames) [] ∧
  (akeys s.2.item_table).Nodup ∧
  (akeys s.2.gaze_table).Nodup

/-- An operation sequence whose writes all target a registered item
(theorem instantiation data). -/
def opsW : List Op :=
  [Op.setStatus "milk" 5 "top", Op.sale "milk" 2, Op.restock "milk" 1,
   Op.interaction "milk" "pickup", Op.gaze 1.5, Op.stature 240]

/-- A state with two buffered stature samples (theorem instantiation data). -/
def memTwoSamples : Mem :=
  { height_history := [1.5, 1.7], item_data := [], gaze_data := [] }

/-- A state with gaze tallies on two zones (theorem instantiation data). -/
def memGaze : Mem := { emptyMem with gaze_data := [("top", 3), ("bottom", 1)] }

/-- A small-capacity configuration (theorem instantiation data). -/
def cfgSmall : Config := { defaultConfig with history_frames := 2 }

/-- A state with three items (theorem instantiation data). -/
def memItems : Mem :=
  { emptyMem with item_data :=
      [("a", { defaultItem with sales := 3 }),
       ("b", { defaultItem with sales := 7 }),
       ("c", { defaultItem with pickups := 2, dropoffs := 5 })] }

theorem akeys_nil {α : Type} : akeys ([] : AList α) = [] := rfl

theorem akeys_cons {α : Type} (p : String × α) (t : AList α) :
    akeys (p :: t) = p.1 :: akeys t := rfl

theorem alookup_cons {α : Type} (p : String × α) (t : AList α) (key : String) :
    alookup (p :: t) key = if p.1 = key then some p.2 else alookup t key := rfl

theorem aset_cons {α : Type} (p : String × α) (t : AList α) (key : String) (v : α) :
    aset (p :: t) key v = if p.1 = key then (key, v) :: t else p :: aset t key v := rfl

theorem alookup_aset_self {α : Type} (m : AList α) (k : String) (v : α) :
    alookup (aset m k v) k = some v := by
  induction m with
  | nil => simp [aset, alookup]
  | cons p t ih =>
    rw [aset_cons]
    by_cases h : p.1 = k
    · rw [if_pos h, alookup_cons, if_pos rfl]
    · rw [if_neg h, alookup_cons, if_neg h, ih]

theorem alookup_aset_ne {α : Type} (m : AList α) (k k2 : String) (v : α)
    (h : k2 ≠ k) : alookup (aset m k v) k2 = alookup m k2 := by
  induction m with
  | nil =>
    rw [aset, alookup_cons, if_neg (fun hh => h (hh.symm))]
  | cons p t ih =>
    rw [aset_cons]
    by_cases hp : p.1 = k
    · rw [if_pos hp, alookup_cons, alookup_cons,
        if_neg (fun hh => h hh.symm), hp, if_neg (fun hh => h hh.symm)]
    · rw [if_neg hp, alookup_cons, alookup_cons, ih]

theorem aget_aset_self {α : Type} (m : AList α) (k : String) (v d : α) :
    aget (aset m k v) k d = v := by
  rw [aget, alookup_aset_self]
  rfl

theorem aget_aset_ne {α : Type} (m : AList α) (k k2 : String) (v d : α)
    (h : k2 ≠ k) : aget (aset m k v) k2 d = aget m k2 d := by
  rw [aget, alookup_aset_ne m k k2 v h, aget]

theorem alookup_mem {α : Type} (m : AList α) (k : String) (v : α)
    (h : alookup m k = some v) : (k, v) ∈ m := by
  induction m with
  | nil => exact absurd h (by simp [alookup])
  | cons p t ih =>
    rw [alookup_cons] at h
    by_cases hp : p.1 = k
    · rw [if_pos hp] at h
      have hv : p.2 = v := Option.some.inj h
      have : p = (k, v) := by
        cases p
        simp only at hp hv
        rw [hp, hv]
      rw [← this]
      exact List.mem_cons_self p t
    · rw [if_neg hp] at h
      exact List.mem_cons_of_mem _ (ih h)

theorem alookup_eq_none_of_not_mem {α : Type} (m : AList α) (k : String)
    (h : k ∉ akeys m) : alookup m k = none := by
  induction m with
  | nil => rfl
  | cons p t ih =>
    rw [akeys_cons, List.mem_cons, not_or] at h
    rw [alookup_cons, if_neg (fun hh => h.1 hh.symm)]
    exact ih h.2

theorem mem_akeys_of_alookup {α : Type} (m : AList α) (k : String) (v : α)
    (h : alookup m k = some v) : k ∈ akeys m := by
  by_contra hk
  rw [alookup_eq_none_of_not_mem m k hk] at h
  exact Option.noConfusion h

theorem alookup_isSome_of_mem_akeys {α : Type} (m : AList α) (k : String)
    (h : k ∈ akeys m) : ∃ v, alookup m k = some v := by
  induction m with
  | nil => exact absurd h (by simp [akeys])
  | cons p t ih =>
    rw [alookup_cons]
    by_cases hp : p.1 = k
    · exact ⟨p.2, if_pos hp⟩
    · rw [if_neg hp]
      rw [akeys_cons, List.mem_cons] at h
      exact ih (h.resolve_left (fun hh => hp hh.symm))

theorem mem_akeys_aset {α : Type} (m : AList α) (k x : String) (v : α)
    (h : x ∈ akeys (aset m k v)) : x ∈ akeys m ∨ x = k := by
  induction m with
  | nil =>
    right
    simpa [aset, akeys] using h
  | cons p t ih =>
    rw [aset_cons] at h
    by_cases hp : p.1 = k
    · rw [if_pos hp, akeys_cons, List.mem_cons] at h
      rcases h with h | h
      · right; exact h
      · left
        rw [akeys_cons, List.mem_cons]
        right; exact h
    · rw [if_neg hp, akeys_cons, List.mem_cons] at h
      rcases h with h | h
      · left
        rw [akeys_cons, List.mem_cons]
        left; exact h
      · rcases ih h with h2 | h2
        · left
          rw [akeys_cons, List.mem_cons]
          right; exact h2
        · right; exact h2

theorem self_mem_akeys_aset {α : Type} (m : AList α) (k : String) (v : α) :
    k ∈ akeys (aset m k v) := by
  induction m with
  | nil => simp [aset, akeys]
  | cons p t ih =>
    rw [aset_cons]
    by_cases hp : p.1 = k
    · rw [if_pos hp, akeys_cons]
      exact List.mem_cons_self _ _
    · rw [if_neg hp, akeys_cons]
      exact List.mem_cons_of_mem _ ih

theorem mem_akeys_aset_of_mem {α : Type} (m : AList α) (k x : String) (v : α)
    (h : x ∈ akeys m) : x ∈ akeys (aset m k v) := by
  induction m with
  | nil => exact absurd h (by simp [akeys])
  | cons p t ih =>
    rw [akeys_cons, List.mem_cons] at h
    rw [aset_cons]
    by_cases hp : p.1 = k
    · rw [if_pos hp, akeys_cons]
      rcases h with h | h
      · rw [List.mem_cons]
        left
        rw [h, hp]
      · exact List.mem_cons_of_mem _ h
    · rw [if_neg hp, akeys_cons]
      rcases h with h | h
      · rw [h]
        exact List.mem_cons_self _ _
      · exact List.mem_cons_of_mem _ (ih h)

theorem akeys_aset_nodup {α : Type} (m : AList α) (k : String) (v : α)
    (h : (akeys m).Nodup) : (akeys (aset m k v)).Nodup := by
  induction m with
  | nil => simp [aset, akeys]
  | cons p t ih =>
    rw [akeys_cons, List.nodup_cons] at h
    rw [aset_cons]
    by_cases hp : p.1 = k
    · rw [if_pos hp, akeys_cons, List.nodup_cons]
      exact ⟨hp ▸ h.1, h.2⟩
    · rw [if_neg hp, akeys_cons, List.nodup_cons]
      refine ⟨?_, ih h.2⟩
      intro hmem
      rcases mem_akeys_aset t k p.1 v hmem with h2 | h2
      · exact h.1 h2
      · exact hp h2

theorem find?_first {α : Type} (p : α → Bool) (l1 l2 : List α) (x : α)
    (h1 : ∀ a ∈ l1, ¬p a = true) (hx : p x = true) :
    (l1 ++ x :: l2).find? p = some x := by
  induction l1 with
  | nil => simpa using List.find?_cons_of_pos l2 hx
  | cons a t ih =>
    rw [List.cons_append,
      List.find?_cons_of_neg _ (by simpa using h1 a (List.mem_cons_self a t))]
    exact ih (fun b hb => h1 b (List.mem_cons_of_mem a hb))

theorem findZone_first (cfg : Config) (y : ℚ) (l1 l2 : List (String × ℚ × ℚ))
    (zb : String × ℚ × ℚ) (hlay : cfg.shelf_layout = l1 ++ zb :: l2)
    (h1 : ∀ zb1 ∈ l1, ¬(zb1.2.1 ≤ y ∧ y ≤ zb1.2.2))
    (hlo : zb.2.1 ≤ y) (hhi : y ≤ zb.2.2) :
    findZone cfg y = some zb := by
  rw [findZone, hlay]
  refine find?_first _ l1 l2 zb ?_ (by simp [hlo, hhi])
  intro a ha
  simpa using h1 a ha

theorem findZone_none (cfg : Config) (y : ℚ)
    (h : ∀ zb ∈ cfg.shelf_layout, ¬(zb.2.1 ≤ y ∧ y ≤ zb.2.2)) :
    findZone cfg y = none := by
  rw [findZone, List.find?_eq_none]
  intro zb hzb
  simpa using h zb hzb

/-- C8: `calibrate_height` returns exactly `0` for every non-positive pixel
height, and `reference_height * 240 / pixelHeight` (240 being the configured
reference pixel span) for every positive pixel height. -/
theorem c8_calibrate_spec (cfg : Config) (p : ℚ) :
    (p ≤ 0 → calibrate_height cfg p = 0) ∧
    (0 < p → calibrate_height cfg p = cfg.reference_height * 240 / p) := by
  constructor
  · intro h
    rw [calibrate_height, if_pos h]
  · intro h
    rw [calibrate_height, if_neg (not_le.mpr h)]

theorem c8_calibrate_spec_witness :
    calibrate_height defaultConfig (-5) = 0 ∧
    calibrate_height defaultConfig 240 = defaultConfig.reference_height * 240 / 240 :=
  ⟨(c8_calibrate_spec defaultConfig (-5)).1 (by with_unfolding_all decide),
   (c8_calibrate_spec defaultConfig 240).2 (by with_unfolding_all decide)⟩

/-- C7: `calculate_gaze_range` returns exactly `(1.4, 1.7)` when called with no
override and an empty history buffer; otherwise, with `h` the override if given
and else the mean of the buffered samples, it returns exactly
`(max 0.5 (0.95*h - 0.10), min 1.8 (0.95*h + 0.10))`. -/
theorem c7_comfort_range_spec (mem : Mem) :
    (mem.height_history = [] → calculate_gaze_range mem none = (1.4, 1.7)) ∧
    (∀ h : ℚ, calculate_gaze_range mem (some h) =
      (max 0.5 (0.95 * h - 0.10), min 1.8 (0.95 * h + 0.10))) ∧
    (mem.height_history ≠ [] → calculate_gaze_range mem none =
      (max 0.5 (0.95 * listMean mem.height_history - 0.10),
       min 1.8 (0.95 * listMean mem.height_history + 0.10))) := by
  refine ⟨?_, ?_, ?_⟩
  · intro h
    simp [calculate_gaze_range, h]
  · intro h
    simp [calculate_gaze_range, mul_comm]
  · intro h
    simp [calculate_gaze_range, h, mul_comm]

theorem c7_comfort_range_spec_witness :
    calculate_gaze_range emptyMem none = (1.4, 1.7) ∧
    calculate_gaze_range emptyMem (some 2) =
      (max 0.5 (0.95 * 2 - 0.10), min 1.8 (0.95 * 2 + 0.10)) ∧
    calculate_gaze_range memTwoSamples none =
      (max 0.5 (0.95 * listMean memTwoSamples.height_history - 0.10),
       min 1.8 (0.95 * listMean memTwoSamples.height_history + 0.10)) :=
  ⟨(c7_comfort_range_spec emptyMem).1 rfl,
   (c7_comfort_range_spec emptyMem).2.1 2,
   (c7_comfort_range_spec memTwoSamples).2.2 (by with_unfolding_all decide)⟩

/-- C2 (observed defect): `update_item_status` silently accepts and records a
position that names no configured zone — no error is reported, contradicting
the specified rejection of unknown zones in position assignment. -/
theorem c2_unknown_zone_accepted :
    (aget (update_item_status "milk" 5 "ghost_zone" (emptyMem, emptyDB)).1.item_data
        "milk" defaultItem).position = some "ghost_zone" ∧
    "ghost_zone" ∉ akeys defaultConfig.shelf_layout := by
  with_unfolding_all decide

/-- C9: `calculate_shelf_scores` and `recommend_item_positions` are pure reads:
the engine call leaves the state unchanged, and calling again on the resulting
state yields the identical result. -/
theorem c9_pure_reads (cfg : Config) (s : Mem × DB) (po : Option (List String)) :
    (calculate_shelf_scores_call cfg s).2 = s ∧
    (calculate_shelf_scores_call cfg (calculate_shelf_scores_call cfg s).2).1 =
      (calculate_shelf_scores_call cfg s).1 ∧
    (recommend_item_positions_call cfg po s).2 = s ∧
    (recommend_item_positions_call cfg po (recommend_item_positions_call cfg po s).2).1 =
      (recommend_item_positions_call cfg po s).1 :=
  ⟨rfl, rfl, rfl, rfl⟩

/-- C10: the in-memory effect of `record_sale` touches only the target item's
`sales` (raised by `qty`) and `current_stock` (lowered by `qty`); its other
fields, every other item, the gaze tallies and the history buffer are
unchanged. -/
theorem c10_record_sale_frame (id : String) (qty : ℤ) (s : Mem × DB) :
    (aget (record_sale id qty s).1.item_data id defaultItem).sales =
      (aget s.1.item_data id defaultItem).sales + qty ∧
    (aget (record_sale id qty s).1.item_data id defaultItem).current_stock =
      (aget s.1.item_data id defaultItem).current_stock - qty ∧
    (aget (record_sale id qty s).1.item_data id defaultItem).pickups =
      (aget s.1.item_data id defaultItem).pickups ∧
    (aget (record_sale id qty s).1.item_data id defaultItem).dropoffs =
      (aget s.1.item_data id defaultItem).dropoffs ∧
    (aget (record_sale id qty s).1.item_data id defaultItem).position =
      (aget s.1.item_data id defaultItem).position ∧
    (∀ j, j ≠ id → aget (record_sale id qty s).1.item_data j defaultItem =
      aget s.1.item_data j defaultItem) ∧
    (record_sale id qty s).1.gaze_data = s.1.gaze_data ∧
    (record_sale id qty s).1.height_history = s.1.height_history := by
  have hmem : (record_sale id qty s).1.item_data =
      aset s.1.item_data id
        { aget s.1.item_data id defaultItem with
            sales := (aget s.1.item_data id defaultItem).sales + qty,
            current_stock := (aget s.1.item_data id defaultItem).current_stock - qty } := rfl
  refine ⟨?_, ?_, ?_, ?_, ?_, ?_, rfl, rfl⟩
  · rw [hmem, aget_aset_self]
  · rw [hmem, aget_aset_self]
  · rw [hmem, aget_aset_self]
  · rw [hmem, aget_aset_self]
  · rw [hmem, aget_aset_self]
  · intro j hj
    rw [hmem, aget_aset_ne _ _ _ _ _ hj]

theorem c10_record_sale_frame_witness :
    (aget (record_sale "a" 2 (memItems, emptyDB)).1.item_data "a" defaultItem).sales =
      (aget memItems.item_data "a" defaultItem).sales + 2 ∧
    aget (record_sale "a" 2 (memItems, emptyDB)).1.item_data "b" defaultItem =
      aget memItems.item_data "b" defaultItem :=
  ⟨(c10_record_sale_frame "a" 2 (memItems, emptyDB)).1,
   (c10_record_sale_frame "a" 2 (memItems, emptyDB)).2.2.2.2.2.1 "b"
     (by with_unfolding_all decide)⟩

/-- C6: `update_gaze_data` increments by exactly 1 the tally of the first zone
in layout order whose closed band contains `y`, leaves every other tally
unchanged even when several bands contain `y`, and does nothing at all (no
error) when no band contains `y`. -/
theorem c6_record_gaze_first_match (cfg : Config) (y : ℚ) (s : Mem × DB) :
    (∀ l1 l2 zb, cfg.shelf_layout = l1 ++ zb :: l2 →
      (∀ zb1 ∈ l1, ¬(zb1.2.1 ≤ y ∧ y ≤ zb1.2.2)) →
      zb.2.1 ≤ y → y ≤ zb.2.2 →
      aget (update_gaze_data cfg y s).1.gaze_data zb.1 0 =
        aget s.1.gaze_data zb.1 0 + 1 ∧
      (∀ z, z ≠ zb.1 →
        aget (update_gaze_data cfg y s).1.gaze_data z 0 = aget s.1.gaze_data z 0)) ∧
    ((∀ zb ∈ cfg.shelf_layout, ¬(zb.2.1 ≤ y ∧ y ≤ zb.2.2)) →
      update_gaze_data cfg y s = s) := by
  constructor
  · intro l1 l2 zb hlay h1 hlo hhi
    have hfz : findZone cfg y = some zb := findZone_first cfg y l1 l2 zb hlay h1 hlo hhi
    have hgz : (update_gaze_data cfg y s).1.gaze_data =
        aset s.1.gaze_data zb.1 (aget s.1.gaze_data zb.1 0 + 1) := by
      rw [update_gaze_data, hfz]
    constructor
    · rw [hgz, aget_aset_self]
    · intro z hz
      rw [hgz, aget_aset_ne _ _ _ _ _ hz]
  · intro hnone
    rw [update_gaze_data, findZone_none cfg y hnone]

theorem insertDesc_perm {α : Type} (x : α × ℚ) (l : List (α × ℚ)) :
    (insertDesc x l).Perm (x :: l) := by
  induction l with
  | nil => exact List.Perm.refl _
  | cons y t ih =>
    rw [insertDesc]
    by_cases h : y.2 ≤ x.2
    · rw [if_pos h]
    · rw [if_neg h]
      exact (ih.cons y).trans (List.Perm.swap x y t)

theorem sortDesc_perm {α : Type} (l : List (α × ℚ)) : (sortDesc l).Perm l := by
  induction l with
  | nil => exact List.Perm.refl _
  | cons x t ih =>
    rw [sortDesc, List.foldr_cons]
    exact (insertDesc_perm x (t.foldr insertDesc [])).trans (ih.cons x)

theorem length_mul_le_sum (l : List ℕ) (c : ℕ) (h : ∀ x ∈ l, c ≤ x) :
    l.length * c ≤ l.sum := by
  induction l with
  | nil => simp
  | cons a t ih =>
    simp only [List.length_cons, List.sum_cons]
    have h1 := ih (fun x hx => h x (List.mem_cons_of_mem a hx))
    have h2 := h a (List.mem_cons_self a t)
    calc (t.length + 1) * c = t.length * c + c := Nat.succ_mul _ _
    _ ≤ t.sum + a := Nat.add_le_add h1 h2
    _ = a + t.sum := Nat.add_comm _ _

theorem totalCount_nil_zc (zones : List String) : totalCount zones [] = 0 := by
  induction zones with
  | nil => rfl
  | cons a t ih =>
    rw [totalCount, List.map_cons, List.sum_cons] at *
    simp only [aget, alookup, Option.getD_none] at *
    omega

theorem totalCount_cons (a : String) (t : List String) (m : AList ℕ) :
    totalCount (a :: t) m = aget m a 0 + totalCount t m := by
  rw [totalCount, List.map_cons, List.sum_cons, totalCount]

theorem totalCount_aset (zones : List String) (zc : AList ℕ) (z : String)
    (hmem : z ∈ zones) (hnd : zones.Nodup) :
    totalCount zones (aset zc z (aget zc z 0 + 1)) = totalCount zones zc + 1 := by
  induction zones with
  | nil => cases hmem
  | cons a t ih =>
    rw [totalCount_cons, totalCount_cons]
    rcases List.mem_cons.mp hmem with rfl | h
    · rw [aget_aset_self]
      have htail : totalCount t (aset zc z (aget zc z 0 + 1)) = totalCount t zc := by
        rw [totalCount, totalCount]
        refine congrArg List.sum (List.map_congr_left ?_)
        intro w hw
        exact aget_aset_ne _ _ _ _ _
          (fun he => (List.nodup_cons.mp hnd).1 (he ▸ hw))
      rw [htail]
      omega
    · have hne : a ≠ z := fun he => (List.nodup_cons.mp hnd).1 (he ▸ h)
      rw [aget_aset_ne _ _ _ _ _ hne, ih h (List.nodup_cons.mp hnd).2]
      omega

theorem countZ_cons_self (z i : String) (r : AList String) :
    countZ z ((i, z) :: r) = countZ z r + 1 := by
  simp [countZ, List.filter_cons]

theorem countZ_cons_ne (z i y : String) (r : AList String) (h : y ≠ z) :
    countZ z ((i, y) :: r) = countZ z r := by
  simp [countZ, List.filter_cons, h]

theorem allocate_total (cap : ℕ) (zones : List String)
    (hnd : zones.Nodup) :
    ∀ (its : List (String × ℚ)) (zc : AList ℕ),
      totalCount zones zc + its.length ≤ zones.length * cap →
      (allocate cap zones its zc).map Prod.fst = its.map Prod.fst := by
  intro its
  induction its with
  | nil =>
    intro zc h
    rfl
  | cons it t ih =>
    intro zc h
    cases hf : zones.find? (fun z => decide (aget zc z 0 < cap)) with
    | none =>
      exfalso
      have hall : ∀ z ∈ zones, cap ≤ aget zc z 0 := by
        intro z hz
        have hzf := List.find?_eq_none.mp hf z hz
        simpa using hzf
      have hsum : zones.length * cap ≤ totalCount zones zc := by
        rw [totalCount]
        have hlen := length_mul_le_sum (zones.map fun z => aget zc z 0) cap (by
          intro x hx
          obtain ⟨z, hz, rfl⟩ := List.mem_map.mp hx
          exact hall z hz)
        simpa using hlen
      simp only [List.length_cons] at h
      omega
    | some z =>
      have hz_mem : z ∈ zones := List.mem_of_find?_eq_some hf
      have hrest := ih (aset zc z (aget zc z 0 + 1)) (by
        rw [totalCount_aset zones zc z hz_mem hnd]
        simp only [List.length_cons] at h
        omega)
      simp only [allocate, hf, List.map_cons]
      rw [hrest]

theorem allocate_capacity (cap : ℕ) (zones : List String) :
    ∀ (its : List (String × ℚ)) (zc : AList ℕ) (z : String),
      aget zc z 0 ≤ cap →
      countZ z (allocate cap zones its zc) + aget zc z 0 ≤ cap := by
  intro its
  induction its with
  | nil =>
    intro zc z h
    simpa [allocate, countZ] using h
  | cons it t ih =>
    intro zc z h
    cases hf : zones.find? (fun w => decide (aget zc w 0 < cap)) with
    | none =>
      simp only [allocate, hf]
      exact ih zc z h
    | some w =>
      have hlt : aget zc w 0 < cap := by simpa using List.find?_some hf
      simp only [allocate, hf]
      by_cases hwz : w = z
      · subst hwz
        have hrec := ih (aset zc w (aget zc w 0 + 1)) w (by
          rw [aget_aset_self]
          omega)
        rw [aget_aset_self] at hrec
        rw [countZ_cons_self]
        omega
      · have hrec := ih (aset zc w (aget zc w 0 + 1)) z (by
          rw [aget_aset_ne _ _ _ _ _ (fun he => hwz he.symm)]
          exact h)
        rw [aget_aset_ne _ _ _ _ _ (fun he => hwz he.symm)] at hrec
        rw [countZ_cons_ne _ _ _ _ hwz]
        omega

/-- C3: with a non-empty, duplicate-free configured zone set,
`recommend_item_positions` assigns every known item to some zone — no item is
omitted from the result — and no zone receives more than
`max 1 (itemCount / zoneCount + 1)` items. -/
theorem c3_allocation_complete (cfg : Config) (mem : Mem) (po : Option (List String))
    (hne : cfg.shelf_layout ≠ [])
    (hnd : (cfg.shelf_layout.map Prod.fst).Nodup) :
    (∀ id ∈ mem.item_data.map Prod.fst,
      ∃ z, alookup (recommend_item_positions cfg mem po) id = some z) ∧
    (∀ z, countZ z (recommend_item_positions cfg mem po) ≤
      max 1 (mem.item_data.length / cfg.shelf_layout.length + 1)) := by
  have hSkeys : (calculate_shelf_scores cfg mem).map Prod.fst =
      cfg.shelf_layout.map Prod.fst := by
    simp only [calculate_shelf_scores, List.map_map]
    rfl
  have hSlen : (calculate_shelf_scores cfg mem).length = cfg.shelf_layout.length := by
    simp only [calculate_shelf_scores, List.length_map]
  have hzperm : ((sortDesc (calculate_shelf_scores cfg mem)).map Prod.fst).Perm
      (cfg.shelf_layout.map Prod.fst) := by
    rw [← hSkeys]
    exact (sortDesc_perm _).map Prod.fst
  have hznd : ((sortDesc (calculate_shelf_scores cfg mem)).map Prod.fst).Nodup :=
    hzperm.nodup_iff.mpr hnd
  have hzlen0 : (sortDesc (calculate_shelf_scores cfg mem)).length =
      cfg.shelf_layout.length := by
    rw [(sortDesc_perm _).length_eq, hSlen]
  have hzlen : ((sortDesc (calculate_shelf_scores cfg mem)).map Prod.fst).length =
      cfg.shelf_layout.length := by
    rw [List.length_map, hzlen0]
  have hilen : (sortDesc (mem.item_data.map
      (fun p => (p.1, itemPriority cfg po p.1 p.2)))).length = mem.item_data.length := by
    rw [(sortDesc_perm _).length_eq, List.length_map]
  have hL : 0 < cfg.shelf_layout.length := List.length_pos.mpr hne
  have hcapb : mem.item_data.length ≤
      cfg.shelf_layout.length *
        max 1 (mem.item_data.length / cfg.shelf_layout.length + 1) := by
    have hmod := Nat.div_add_mod mem.item_data.length cfg.shelf_layout.length
    have hmlt := Nat.mod_lt mem.item_data.length hL
    have hms : cfg.shelf_layout.length *
        (mem.item_data.length / cfg.shelf_layout.length + 1) =
        cfg.shelf_layout.length * (mem.item_data.length / cfg.shelf_layout.length) +
          cfg.shelf_layout.length := by ring
    have hmax : max 1 (mem.item_data.length / cfg.shelf_layout.length + 1) =
        mem.item_data.length / cfg.shelf_layout.length + 1 :=
      max_eq_right (Nat.le_add_left 1 _)
    rw [hmax]
    omega
  have hrec : recommend_item_positions cfg mem po =
      allocate (max 1 (mem.item_data.length / cfg.shelf_layout.length + 1))
        ((sortDesc (calculate_shelf_scores cfg mem)).map Prod.fst)
        (sortDesc (mem.item_data.map (fun p => (p.1, itemPriority cfg po p.1 p.2))))
        [] := by
    simp only [recommend_item_positions]
    rw [hilen, hzlen0]
  have htot : totalCount ((sortDesc (calculate_shelf_scores cfg mem)).map Prod.fst) [] +
      (sortDesc (mem.item_data.map (fun p => (p.1, itemPriority cfg po p.1 p.2)))).length ≤
      ((sortDesc (calculate_shelf_scores cfg mem)).map Prod.fst).length *
        max 1 (mem.item_data.length / cfg.shelf_layout.length + 1) := by
    rw [totalCount_nil_zc, hilen, hzlen]
    omega
  have hkeys := allocate_total
    (max 1 (mem.item_data.length / cfg.shelf_layout.length + 1))
    ((sortDesc (calculate_shelf_scores cfg mem)).map Prod.fst) hznd
    (sortDesc (mem.item_data.map (fun p => (p.1, itemPriority cfg po p.1 p.2))))
    [] htot
  constructor
  · intro id hid
    have hid2 : id ∈ (sortDesc (mem.item_data.map
        (fun p => (p.1, itemPriority cfg po p.1 p.2)))).map Prod.fst := by
      have hpk : (mem.item_data.map
          (fun p => (p.1, itemPriority cfg po p.1 p.2))).map Prod.fst =
          mem.item_data.map Prod.fst := by
        rw [List.map_map]
        rfl
      rw [((sortDesc_perm _).map Prod.fst).mem_iff, hpk]
      exact hid
    have hid3 : id ∈ akeys (recommend_item_positions cfg mem po) := by
      rw [akeys, hrec, hkeys]
      exact hid2
    exact alookup_isSome_of_mem_akeys _ _ hid3
  · intro z
    have hcapz := allocate_capacity
      (max 1 (mem.item_data.length / cfg.shelf_layout.length + 1))
      ((sortDesc (calculate_shelf_scores cfg mem)).map Prod.fst)
      (sortDesc (mem.item_data.map (fun p => (p.1, itemPriority cfg po p.1 p.2))))
      [] z (by simp [aget, alookup])
    have hzc : aget ([] : AList ℕ) z 0 = 0 := rfl
    rw [hzc] at hcapz
    rw [hrec]
    omega

theorem c3_allocation_complete_witness :
    (∃ z, alookup (recommend_item_positions defaultConfig memItems none) "a" = some z) ∧
    countZ "top" (recommend_item_positions defaultConfig memItems none) ≤
      max 1 (memItems.item_data.length / defaultConfig.shelf_layout.length + 1) :=
  ⟨(c3_allocation_complete defaultConfig memItems none (by with_unfolding_all decide)
      (by with_unfolding_all decide)).1 "a" (by with_unfolding_all decide),
   (c3_allocation_complete defaultConfig memItems none (by with_unfolding_all decide)
      (by with_unfolding_all decide)).2 "top"⟩

theorem aget_nonneg (m : AList ℤ) (z : String) (h : ∀ p ∈ m, 0 ≤ p.2) :
    0 ≤ aget m z 0 := by
  rw [aget]
  cases hz : alookup m z with
  | none => simp
  | some v =>
    have := h (z, v) (alookup_mem m z v hz)
    simpa using this

theorem aget_le_sum (m : AList ℤ) (z : String) (h : ∀ p ∈ m, 0 ≤ p.2) :
    aget m z 0 ≤ (m.map Prod.snd).sum := by
  rw [aget]
  cases hz : alookup m z with
  | none =>
    simp only [Option.getD_none]
    exact List.sum_nonneg (by
      intro x hx
      obtain ⟨p, hp, rfl⟩ := List.mem_map.mp hx
      exact h p hp)
  | some v =>
    simp only [Option.getD_some]
    refine List.single_le_sum ?_ v ?_
    · intro x hx
      obtain ⟨p, hp, rfl⟩ := List.mem_map.mp hx
      exact h p hp
    · exact List.mem_map.mpr ⟨(z, v), alookup_mem m z v hz, rfl⟩

theorem combine_unit_interval (w g e : ℚ) (hw0 : 0 ≤ w) (hw1 : w ≤ 1)
    (hg0 : 0 ≤ g) (hg1 : g ≤ 1) (he0 : 0 ≤ e) (he1 : e ≤ 1) :
    0 ≤ w * g + (1 - w) * e ∧ w * g + (1 - w) * e ≤ 1 := by
  constructor
  · exact add_nonneg (mul_nonneg hw0 hg0) (mul_nonneg (by linarith) he0)
  · have h1 : w * g ≤ w * 1 := mul_le_mul_of_nonneg_left hg1 hw0
    have h2 : (1 - w) * e ≤ (1 - w) * 1 :=
      mul_le_mul_of_nonneg_left he1 (by linarith)
    nlinarith

/-- C4: whenever the gaze weight lies in `[0,1]`, every configured zone band is
non-degenerate (`lower < upper`) and every stored gaze tally is non-negative,
every score returned by `calculate_shelf_scores` lies in the closed interval
`[0,1]` (the scores are not normalized to sum to 1). -/
theorem c4_scores_unit_interval (cfg : Config) (mem : Mem)
    (hw0 : 0 ≤ cfg.gaze_weight) (hw1 : cfg.gaze_weight ≤ 1)
    (hz : ∀ zb ∈ cfg.shelf_layout, zb.2.1 < zb.2.2)
    (hg : ∀ p ∈ mem.gaze_data, 0 ≤ p.2) :
    ∀ q ∈ calculate_shelf_scores cfg mem, 0 ≤ q.2 ∧ q.2 ≤ 1 := by
  intro q hq
  rw [calculate_shelf_scores] at hq
  obtain ⟨zb, hmem, rfl⟩ := List.mem_map.mp hq
  dsimp only
  refine combine_unit_interval _ _ _ hw0 hw1 ?_ ?_ ?_ ?_
  · by_cases ht : (mem.gaze_data.map Prod.snd).sum > 0
    · rw [if_pos ht]
      exact div_nonneg (by exact_mod_cast aget_nonneg mem.gaze_data zb.1 hg)
        (by exact_mod_cast le_of_lt ht)
    · rw [if_neg ht]
      have hpos : 0 < cfg.shelf_layout.length :=
        List.length_pos.mpr (List.ne_nil_of_mem hmem)
      exact div_nonneg zero_le_one (by exact_mod_cast Nat.zero_le _)
  · by_cases ht : (mem.gaze_data.map Prod.snd).sum > 0
    · rw [if_pos ht]
      rw [div_le_one (by exact_mod_cast ht)]
      exact_mod_cast aget_le_sum mem.gaze_data zb.1 hg
    · rw [if_neg ht]
      have hpos : 0 < cfg.shelf_layout.length :=
        List.length_pos.mpr (List.ne_nil_of_mem hmem)
      rw [div_le_one (by exact_mod_cast hpos)]
      exact_mod_cast Nat.one_le_iff_ne_zero.mpr (Nat.pos_iff_ne_zero.mp hpos)
  · have hzh : 0 < zb.2.2 - zb.2.1 := sub_pos.mpr (hz zb hmem)
    rw [if_pos hzh]
    exact div_nonneg (le_max_left 0 _) (le_of_lt hzh)
  · have hzh : 0 < zb.2.2 - zb.2.1 := sub_pos.mpr (hz zb hmem)
    rw [if_pos hzh]
    rw [div_le_one hzh]
    refine max_le (le_of_lt hzh) ?_
    exact sub_le_sub (min_le_left zb.2.2 (calculate_gaze_range mem none).2)
      (le_max_left zb.2.1 (calculate_gaze_range mem none).1)

theorem c4_scores_unit_interval_witness :
    ("top", (13 : ℚ)/20) ∈ calculate_shelf_scores defaultConfig memGaze ∧
    (0 ≤ ((13 : ℚ)/20) ∧ ((13 : ℚ)/20) ≤ 1) :=
  ⟨by with_unfolding_all decide,
   c4_scores_unit_interval defaultConfig memGaze (by with_unfolding_all decide)
     (by with_unfolding_all decide) (by with_unfolding_all decide)
     (by with_unfolding_all decide) ("top", 13/20) (by with_unfolding_all decide)⟩

theorem dequeAppend_takeRightL (cap : ℕ) (t : List ℚ) (x : ℚ) :
    dequeAppend cap (takeRightL cap t) x = takeRightL cap (t ++ [x]) := by
  rw [dequeAppend, takeRightL, takeRightL]
  have hb : t.drop (t.length - cap) ++ [x] = (t ++ [x]).drop (t.length - cap) :=
    (List.drop_append_of_le_length (Nat.sub_le _ _)).symm
  rw [hb, List.drop_drop]
  congr 1
  simp only [List.length_drop, List.length_append, List.length_singleton]
  omega

theorem foldl_dequeAppend_takeRightL (cap : ℕ) (l : List ℚ) :
    l.foldl (dequeAppend cap) [] = takeRightL cap l := by
  induction l using List.reverseRecOn with
  | nil => simp [takeRightL]
  | append_singleton t x ih =>
    rw [List.foldl_append, List.foldl_cons, List.foldl_nil, ih, dequeAppend_takeRightL]

theorem acceptedOf_cons (cfg : Config) (p : ℚ) (ps : List ℚ) :
    acceptedOf cfg (p :: ps) =
      if 1.0 ≤ calibrate_height cfg p ∧ calibrate_height cfg p ≤ 2.2
      then calibrate_height cfg p :: acceptedOf cfg ps
      else acceptedOf cfg ps := by
  by_cases h : 1.0 ≤ calibrate_height cfg p ∧ calibrate_height cfg p ≤ 2.2
  · simp [acceptedOf, List.filter_cons, h.1, h.2]
  · rw [if_neg h]
    rcases not_and_or.mp h with h1 | h1
    · simp [acceptedOf, List.filter_cons, h1]
    · simp [acceptedOf, List.filter_cons, h1]

theorem statureRun_height (cfg : Config) (ps : List ℚ) (s : Mem × DB) :
    (runOps cfg s (ps.map Op.stature)).1.height_history =
      (acceptedOf cfg ps).foldl (dequeAppend cfg.history_frames) s.1.height_history := by
  induction ps generalizing s with
  | nil => rfl
  | cons p pt ih =>
    simp only [List.map_cons, runOps, List.foldl_cons, acceptedOf_cons]
    by_cases h : 1.0 ≤ calibrate_height cfg p ∧ calibrate_height cfg p ≤ 2.2
    · rw [if_pos h]
      rw [show step cfg s (Op.stature p) =
        ({ s.1 with height_history :=
            dequeAppend cfg.history_frames s.1.height_history (calibrate_height cfg p) },
         { s.2 with height_table := s.2.height_table ++ [calibrate_height cfg p] }) from by
          rw [step, update_height_data, if_pos h]]
      rw [List.foldl_cons]
      exact ih _
    · rw [if_neg h]
      rw [show step cfg s (Op.stature p) = s from by
        rw [step, update_height_data, if_neg h]]
      exact ih s

/-- C5: after any sequence of `update_height_data` calls from an empty buffer,
every stored sample lies in `[1.0, 2.2]`, the buffer length never exceeds the
configured capacity, `capacity + 1` accepted samples evict exactly the oldest
one, and a call whose calibrated value falls outside `[1.0, 2.2]` leaves the
whole state unchanged with no error. -/
theorem c5_history_buffer_invariant (cfg : Config) (ps : List ℚ) :
    (∀ x ∈ (runOps cfg (emptyMem, emptyDB) (ps.map Op.stature)).1.height_history,
      1.0 ≤ x ∧ x ≤ 2.2) ∧
    (runOps cfg (emptyMem, emptyDB) (ps.map Op.stature)).1.height_history.length ≤
      cfg.history_frames ∧
    ((acceptedOf cfg ps).length = cfg.history_frames + 1 →
      (runOps cfg (emptyMem, emptyDB) (ps.map Op.stature)).1.height_history =
        (acceptedOf cfg ps).drop 1) ∧
    (∀ s : Mem × DB, ∀ p : ℚ,
      ¬(1.0 ≤ calibrate_height cfg p ∧ calibrate_height cfg p ≤ 2.2) →
      update_height_data cfg p s = s) := by
  have hempty : (emptyMem, emptyDB).1.height_history = ([] : List ℚ) := rfl
  have hbuf : (runOps cfg (emptyMem, emptyDB) (ps.map Op.stature)).1.height_history =
      takeRightL cfg.history_frames (acceptedOf cfg ps) := by
    rw [statureRun_height, hempty, foldl_dequeAppend_takeRightL]
  refine ⟨?_, ?_, ?_, ?_⟩
  · intro x hx
    rw [hbuf, takeRightL] at hx
    have hx2 : x ∈ acceptedOf cfg ps := List.drop_subset _ _ hx
    have hp := (List.mem_filter.mp hx2).2
    simpa [Bool.and_eq_true, decide_eq_true_eq] using hp
  · rw [hbuf, takeRightL, List.length_drop]
    omega
  · intro hlen
    rw [hbuf, takeRightL, hlen, Nat.add_sub_cancel_left]
  · intro s p h
    rw [update_height_data, if_neg h]

theorem c5_history_buffer_invariant_witness :
    (1.0 ≤ (1.5 : ℚ) ∧ (1.5 : ℚ) ≤ 2.2) ∧
    (runOps cfgSmall (emptyMem, emptyDB)
      (([240, 280, 300] : List ℚ).map Op.stature)).1.height_history.length ≤
      cfgSmall.history_frames ∧
    (runOps cfgSmall (emptyMem, emptyDB)
      (([240, 280, 300] : List ℚ).map Op.stature)).1.height_history =
      (acceptedOf cfgSmall [240, 280, 300]).drop 1 ∧
    update_height_data cfgSmall 100 (emptyMem, emptyDB) = (emptyMem, emptyDB) :=
  ⟨(c5_history_buffer_invariant cfgSmall [240, 280, 300]).1 1.5
      (by with_unfolding_all decide),
   (c5_history_buffer_invariant cfgSmall [240, 280, 300]).2.1,
   (c5_history_buffer_invariant cfgSmall [240, 280, 300]).2.2.1
      (by with_unfolding_all decide),
   (c5_history_buffer_invariant cfgSmall [240, 280, 300]).2.2.2 (emptyMem, emptyDB) 100
      (by with_unfolding_all decide)⟩

theorem akeys_dbUpdate {α : Type} (m : AList α) (k : String) (f : α → α) :
    akeys (dbUpdate m k f) = akeys m := by
  induction m with
  | nil => rfl
  | cons p t ih =>
    by_cases hp : p.1 = k
    · simp only [dbUpdate, List.map_cons, if_pos hp, akeys_cons] at *
      rw [ih]
    · simp only [dbUpdate, List.map_cons, if_neg hp, akeys_cons] at *
      rw [ih]

theorem alookup_dbUpdate_ne {α : Type} (m : AList α) (k k2 : String) (f : α → α)
    (h : k2 ≠ k) : alookup (dbUpdate m k f) k2 = alookup m k2 := by
  induction m with
  | nil => rfl
  | cons p t ih =>
    by_cases hp : p.1 = k
    · simp only [dbUpdate, List.map_cons, if_pos hp, alookup_cons] at *
      rw [if_neg (fun hh => h (hh.symm.trans hp)), if_neg (fun hh => h (hh.symm.trans hp))]
      exact ih
    · simp only [dbUpdate, List.map_cons, if_neg hp, alookup_cons] at *
      by_cases hp2 : p.1 = k2
      · rw [if_pos hp2, if_pos hp2]
      · rw [if_neg hp2, if_neg hp2]
        exact ih

theorem aget_dbUpdate_ne {α : Type} (m : AList α) (k k2 : String) (f : α → α)
    (d : α) (h : k2 ≠ k) : aget (dbUpdate m k f) k2 d = aget m k2 d := by
  rw [aget, alookup_dbUpdate_ne m k k2 f h, aget]

theorem aget_dbUpdate_self {α : Type} (m : AList α) (k : String) (f : α → α)
    (d : α) (h : k ∈ akeys m) : aget (dbUpdate m k f) k d = f (aget m k d) := by
  induction m with
  | nil => exact absurd h (by simp [akeys])
  | cons p t ih =>
    by_cases hp : p.1 = k
    · simp only [dbUpdate, List.map_cons, if_pos hp, aget, alookup_cons, if_pos hp]
      rfl
    · rw [akeys_cons, List.mem_cons] at h
      have h2 : k ∈ akeys t := h.resolve_left (fun hh => hp hh.symm)
      simp only [dbUpdate, List.map_cons, if_neg hp, aget, alookup_cons, if_neg hp]
      exact ih h2

theorem alookup_foldl_aset_not_mem {α : Type} :
    ∀ (tbl m : AList α) (k : String), k ∉ akeys tbl →
    alookup (tbl.foldl (fun acc p => aset acc p.1 p.2) m) k = alookup m k := by
  intro tbl
  induction tbl with
  | nil =>
    intro m k _
    rfl
  | cons a t ih =>
    intro m k hk
    rw [akeys_cons, List.mem_cons, not_or] at hk
    rw [List.foldl_cons, ih (aset m a.1 a.2) k hk.2,
      alookup_aset_ne m a.1 k a.2 hk.1]

theorem alookup_foldl_aset_mem {α : Type} :
    ∀ (tbl m : AList α) (k : String) (v : α), (akeys tbl).Nodup →
    alookup tbl k = some v →
    alookup (tbl.foldl (fun acc p => aset acc p.1 p.2) m) k = some v := by
  intro tbl
  induction tbl with
  | nil =>
    intro m k v _ hv
    exact absurd hv (by simp [alookup])
  | cons a t ih =>
    intro m k v hnd hv
    rw [alookup_cons] at hv
    rw [List.foldl_cons]
    by_cases hp : a.1 = k
    · rw [if_pos hp] at hv
      have hk : k ∉ akeys t := hp ▸ (List.nodup_cons.mp (akeys_cons a t ▸ hnd)).1
      rw [alookup_foldl_aset_not_mem t (aset m a.1 a.2) k hk, ← hp,
        alookup_aset_self]
      exact hv
    · rw [if_neg hp] at hv
      exact ih (aset m a.1 a.2) k v (List.nodup_cons.mp (akeys_cons a t ▸ hnd)).2 hv

theorem aget_foldl_aset {α : Type} (tbl : AList α) (k : String) (d : α)
    (hnd : (akeys tbl).Nodup) :
    aget (tbl.foldl (fun acc p => aset acc p.1 p.2) []) k d = aget tbl k d := by
  cases hv : alookup tbl k with
  | some v =>
    rw [aget, alookup_foldl_aset_mem tbl [] k v hnd hv, aget, hv]
  | none =>
    have hk : k ∉ akeys tbl := by
      intro hmem
      obtain ⟨w, hw⟩ := alookup_isSome_of_mem_akeys tbl k hmem
      rw [hw] at hv
      exact Option.noConfusion hv
    rw [aget, alookup_foldl_aset_not_mem tbl [] k hk, aget, hv]
    rfl

theorem InvS_write_back (cfg : Config) (reg : List String) (s : Mem × DB)
    (id : String) (r2 : ItemRec) (g : ItemRec → ItemRec)
    (hreg : id ∈ reg) (hInv : InvS cfg reg s)
    (hg : g (aget s.1.item_data id defaultItem) = r2) :
    InvS cfg reg
      ({ s.1 with item_data := aset s.1.item_data id r2 },
       { s.2 with item_table := dbUpdate s.2.item_table id g }) := by
  obtain ⟨h1, h2, h3, h4, h5, h6⟩ := hInv
  have hid : id ∈ akeys s.2.item_table := h1 id hreg
  refine ⟨?_, ?_, h3, h4, ?_, h6⟩
  · intro j hj
    show j ∈ akeys (dbUpdate s.2.item_table id g)
    rw [akeys_dbUpdate]
    exact h1 j hj
  · intro j
    show aget (aset s.1.item_data id r2) j defaultItem =
      aget (dbUpdate s.2.item_table id g) j defaultItem
    by_cases hj : j = id
    · subst hj
      rw [aget_aset_self, aget_dbUpdate_self _ _ _ _ hid, ← h2 j, hg]
    · rw [aget_aset_ne _ _ _ _ _ hj, aget_dbUpdate_ne _ _ _ _ _ hj]
      exact h2 j
  · show (akeys (dbUpdate s.2.item_table id g)).Nodup
    rw [akeys_dbUpdate]
    exact h5

theorem InvS_record_sale (cfg : Config) (reg : List String) (s : Mem × DB)
    (id : String) (qty : ℤ) (hreg : id ∈ reg) (hInv : InvS cfg reg s) :
    InvS cfg reg (record_sale id qty s) :=
  InvS_write_back cfg reg s id
    { aget s.1.item_data id defaultItem with
        sales := (aget s.1.item_data id defaultItem).sales + qty,
        current_stock := (aget s.1.item_data id defaultItem).current_stock - qty }
    (fun row =>
      { row with
          sales := (aget s.1.item_data id defaultItem).sales + qty,
          current_stock := (aget s.1.item_data id defaultItem).current_stock - qty })
    hreg hInv rfl

theorem InvS_restock_item (cfg : Config) (reg : List String) (s : Mem × DB)
    (id : String) (qty : ℤ) (hreg : id ∈ reg) (hInv : InvS cfg reg s) :
    InvS cfg reg (restock_item id qty s) :=
  InvS_write_back cfg reg s id
    { aget s.1.item_data id defaultItem with
        current_stock := (aget s.1.item_data id defaultItem).current_stock + qty }
    (fun row =>
      { row with
          current_stock := (aget s.1.item_data id defaultItem).current_stock + qty })
    hreg hInv rfl

theorem InvS_record_interaction (cfg : Config) (reg : List String) (s : Mem × DB)
    (id : String) (kind : String) (hreg : id ∈ reg) (hInv : InvS cfg reg s) :
    InvS cfg reg (record_interaction id kind s) := by
  refine InvS_write_back cfg reg s id
    (if kind = "pickup" then
      { aget s.1.item_data id defaultItem with
          pickups := (aget s.1.item_data id defaultItem).pickups + 1 }
     else if kind = "dropoff" then
      { aget s.1.item_data id defaultItem with
          dropoffs := (aget s.1.item_data id defaultItem).dropoffs + 1 }
     else aget s.1.item_data id defaultItem)
    _ hreg hInv ?_
  by_cases hk1 : kind = "pickup"
  · simp [hk1]
  · by_cases hk2 : kind = "dropoff"
    · simp [hk1, hk2]
    · simp [hk1, hk2]

theorem InvS_update_item_status (cfg : Config) (reg : List String) (s : Mem × DB)
    (id : String) (stock : ℤ) (position : String) (hInv : InvS cfg reg s) :
    InvS cfg (id :: reg) (update_item_status id stock position s) := by
  obtain ⟨h1, h2, h3, h4, h5, h6⟩ := hInv
  refine ⟨?_, ?_, h3, h4, ?_, h6⟩
  · intro j hj
    show j ∈ akeys (aset s.2.item_table id
      { aget s.1.item_data id defaultItem with
          current_stock := stock, position := some position })
    rcases List.mem_cons.mp hj with rfl | hj2
    · exact self_mem_akeys_aset _ _ _
    · exact mem_akeys_aset_of_mem _ _ _ _ (h1 j hj2)
  · intro j
    show aget (aset s.1.item_data id _) j defaultItem =
      aget (aset s.2.item_table id _) j defaultItem
    by_cases hj : j = id
    · subst hj
      rw [aget_aset_self, aget_aset_self]
    · rw [aget_aset_ne _ _ _ _ _ hj, aget_aset_ne _ _ _ _ _ hj]
      exact h2 j
  · show (akeys (aset s.2.item_table id _)).Nodup
    exact akeys_aset_nodup _ _ _ h5

theorem InvS_update_gaze (cfg : Config) (reg : List String) (s : Mem × DB)
    (y : ℚ) (hInv : InvS cfg reg s) :
    InvS cfg reg (update_gaze_data cfg y s) := by
  obtain ⟨h1, h2, h3, h4, h5, h6⟩ := hInv
  cases hfz : findZone cfg y with
  | none =>
    have hu : update_gaze_data cfg y s = s := by
      rw [update_gaze_data, hfz]
    rw [hu]
    exact ⟨h1, h2, h3, h4, h5, h6⟩
  | some zb =>
    obtain ⟨zone, b1, b2⟩ := zb
    have hu : update_gaze_data cfg y s =
        ({ s.1 with gaze_data := aset s.1.gaze_data zone (aget s.1.gaze_data zone 0 + 1) },
         { s.2 with gaze_table := aset s.2.gaze_table zone (aget s.1.gaze_data zone 0 + 1) }) := by
      rw [update_gaze_data, hfz]
    rw [hu]
    refine ⟨h1, h2, ?_, h4, h5, ?_⟩
    · intro z
      show aget (aset s.1.gaze_data zone _) z 0 =
        aget (aset s.2.gaze_table zone _) z 0
      by_cases hz : z = zone
      · subst hz
        rw [aget_aset_self, aget_aset_self]
      · rw [aget_aset_ne _ _ _ _ _ hz, aget_aset_ne _ _ _ _ _ hz]
        exact h3 z
    · show (akeys (aset s.2.gaze_table zone _)).Nodup
      exact akeys_aset_nodup _ _ _ h6

theorem InvS_update_height (cfg : Config) (reg : List String) (s : Mem × DB)
    (p : ℚ) (hInv : InvS cfg reg s) :
    InvS cfg reg (update_height_data cfg p s) := by
  obtain ⟨h1, h2, h3, h4, h5, h6⟩ := hInv
  by_cases hacc : 1.0 ≤ calibrate_height cfg p ∧ calibrate_height cfg p ≤ 2.2
  · have hu : update_height_data cfg p s =
        ({ s.1 with height_history := dequeAppend cfg.history_frames s.1.height_history (calibrate_height cfg p) },
         { s.2 with height_table := s.2.height_table ++ [calibrate_height cfg p] }) := by
      rw [update_height_data, if_pos hacc]
    rw [hu]
    refine ⟨h1, h2, h3, ?_, h5, h6⟩
    show dequeAppend cfg.history_frames s.1.height_history (calibrate_height cfg p) =
      (s.2.height_table ++ [calibrate_height cfg p]).foldl
        (dequeAppend cfg.history_frames) []
    rw [List.foldl_append, List.foldl_cons, List.foldl_nil, ← h4]
  · have hu : update_height_data cfg p s = s := by
      rw [update_height_data, if_neg hacc]
    rw [hu]
    exact ⟨h1, h2, h3, h4, h5, h6⟩

theorem InvS_runOps (cfg : Config) :
    ∀ (ops : List Op) (reg : List String) (s : Mem × DB),
      registeredOK ops reg = true → InvS cfg reg s →
      ∃ reg2, InvS cfg reg2 (runOps cfg s ops) := by
  intro ops
  induction ops with
  | nil =>
    intro reg s _ hInv
    exact ⟨reg, hInv⟩
  | cons op t ih =>
    intro reg s hok hInv
    show ∃ reg2, InvS cfg reg2 (runOps cfg (step cfg s op) t)
    cases op with
    | sale id qty =>
      simp only [registeredOK, Bool.and_eq_true] at hok
      have hmem : id ∈ reg := by simpa using hok.1
      exact ih reg _ hok.2 (InvS_record_sale cfg reg s id qty hmem hInv)
    | restock id qty =>
      simp only [registeredOK, Bool.and_eq_true] at hok
      have hmem : id ∈ reg := by simpa using hok.1
      exact ih reg _ hok.2 (InvS_restock_item cfg reg s id qty hmem hInv)
    | interaction id kind =>
      simp only [registeredOK, Bool.and_eq_true] at hok
      have hmem : id ∈ reg := by simpa using hok.1
      exact ih reg _ hok.2 (InvS_record_interaction cfg reg s id kind hmem hInv)
    | setStatus id stock position =>
      simp only [registeredOK] at hok
      exact ih (id :: reg) _ hok
        (InvS_update_item_status cfg reg s id stock position hInv)
    | gaze y =>
      simp only [registeredOK] at hok
      exact ih reg _ hok (InvS_update_gaze cfg reg s y hInv)
    | stature p =>
      simp only [registeredOK] at hok
      exact ih reg _ hok (InvS_update_height cfg reg s p hInv)

/-- C1 (as stated, refuted): from an empty durable store, the single mutation
`record_sale "x" 1` leaves the in-memory `sales` counter of `"x"` at 1, while
the engine reconstructed from the durable store alone reads it back as 0 (the
SQL `UPDATE` matched no row because the item was never inserted). -/
theorem c1_reload_roundtrip_counterexample :
    (aget (runOps defaultConfig (emptyMem, emptyDB) [Op.sale "x" 1]).1.item_data "x"
      defaultItem).sales = 1 ∧
    (aget (load_data_from_db defaultConfig
        (runOps defaultConfig (emptyMem, emptyDB) [Op.sale "x" 1]).2).item_data "x"
      defaultItem).sales = 0 := by
  with_unfolding_all decide

/-- C1 (amended): for every operation sequence from an empty durable state in
which each `record_sale` / `restock_item` / `record_interaction` targets an
item previously registered by `update_item_status`, reloading from the durable
store alone reproduces every item counter record and every gaze tally, and the
reconstructed history buffer equals the pre-reload one, which is the most
recent `history_frames` slice of the accepted stature samples. -/
theorem c1_reload_roundtrip_registered (cfg : Config) (ops : List Op)
    (hok : registeredOK ops [] = true) :
    (∀ id, aget (load_data_from_db cfg (runOps cfg (emptyMem, emptyDB) ops).2).item_data
        id defaultItem =
      aget (runOps cfg (emptyMem, emptyDB) ops).1.item_data id defaultItem) ∧
    (∀ z, aget (load_data_from_db cfg (runOps cfg (emptyMem, emptyDB) ops).2).gaze_data
        z 0 =
      aget (runOps cfg (emptyMem, emptyDB) ops).1.gaze_data z 0) ∧
    (load_data_from_db cfg (runOps cfg (emptyMem, emptyDB) ops).2).height_history =
      (runOps cfg (emptyMem, emptyDB) ops).1.height_history ∧
    (runOps cfg (emptyMem, emptyDB) ops).1.height_history =
      takeRightL cfg.history_frames (runOps cfg (emptyMem, emptyDB) ops).2.height_table := by
  have hInv0 : InvS cfg [] (emptyMem, emptyDB) :=
    ⟨fun id h => absurd h (List.not_mem_nil id), fun id => rfl, fun z => rfl, rfl,
     List.nodup_nil, List.nodup_nil⟩
  obtain ⟨reg2, hInv⟩ := InvS_runOps cfg ops [] (emptyMem, emptyDB) hok hInv0
  obtain ⟨h1, h2, h3, h4, h5, h6⟩ := hInv
  refine ⟨?_, ?_, ?_, ?_⟩
  · intro id
    have hload : aget (load_data_from_db cfg
        (runOps cfg (emptyMem, emptyDB) ops).2).item_data id defaultItem =
        aget (runOps cfg (emptyMem, emptyDB) ops).2.item_table id defaultItem :=
      aget_foldl_aset _ _ _ h5
    rw [hload, ← h2 id]
  · intro z
    have hload : aget (load_data_from_db cfg
        (runOps cfg (emptyMem, emptyDB) ops).2).gaze_data z 0 =
        aget (runOps cfg (emptyMem, emptyDB) ops).2.gaze_table z 0 :=
      aget_foldl_aset _ _ _ h6
    rw [hload, ← h3 z]
  · exact h4.symm
  · rw [h4, foldl_dequeAppend_takeRightL]

theorem c1_reload_roundtrip_registered_witness :
    aget (load_data_from_db defaultConfig
        (runOps defaultConfig (emptyMem, emptyDB) opsW).2).item_data
      "milk" defaultItem =
      aget (runOps defaultConfig (emptyMem, emptyDB) opsW).1.item_data
        "milk" defaultItem ∧
    aget (load_data_from_db defaultConfig
        (runOps defaultConfig (emptyMem, emptyDB) opsW).2).gaze_data "upper_middle" 0 =
      aget (runOps defaultConfig (emptyMem, emptyDB) opsW).1.gaze_data "upper_middle" 0 ∧
    (load_data_from_db defaultConfig
        (runOps defaultConfig (emptyMem, emptyDB) opsW).2).height_history =
      (runOps defaultConfig (emptyMem, emptyDB) opsW).1.height_history :=
  ⟨(c1_reload_roundtrip_registered defaultConfig opsW
      (by with_unfolding_all decide)).1 "milk",
   (c1_reload_roundtrip_registered defaultConfig opsW
      (by with_unfolding_all decide)).2.1 "upper_middle",
   (c1_reload_roundtrip_registered defaultConfig opsW
      (by with_unfolding_all decide)).2.2.1⟩

theorem c6_record_gaze_first_match_witness :
    aget (update_gaze_data defaultConfig 1.6 (emptyMem, emptyDB)).1.gaze_data "top" 0 =
      aget emptyMem.gaze_data "top" 0 + 1 ∧
    aget (update_gaze_data defaultConfig 1.6 (emptyMem, emptyDB)).1.gaze_data
      "upper_middle" 0 = aget emptyMem.gaze_data "upper_middle" 0 ∧
    update_gaze_data defaultConfig 5 (emptyMem, emptyDB) = (emptyMem, emptyDB) := by
  have h := (c6_record_gaze_first_match defaultConfig 1.6 (emptyMem, emptyDB)).1
    [] [("upper_middle", 1.4, 1.6), ("lower_middle", 1.2, 1.4), ("bottom", 0.8, 1.2)]
    ("top", 1.6, 1.8) rfl (by simp) (by with_unfolding_all decide)
    (by with_unfolding_all decide)
  exact ⟨h.1, h.2 "upper_middle" (by with_unfolding_all decide),
    (c6_record_gaze_first_match defaultConfig 5 (emptyMem, emptyDB)).2
      (by with_unfolding_all decide)⟩

end SmartShelf
